import Mathlib

/-!
Verification development for the AT-TPC point-cloud reconstruction core
(`spyral/core/point_cloud.py` and `spyral/correction/electron_corrector.py`).

Machine floats are modelled as exact rationals (ℚ) for the point-cloud
pipeline and as reals (ℝ) for the trigonometric electron corrector.
A point is the fixed 8-field row `[x, y, z, amplitude, integral, pad id,
time, scale]` of the numpy cloud array.
-/

/-- One row of the Nx8 cloud array: `[x, y, z, amplitude, integral, pad id, time, scale]`. -/
structure Pt (α : Type) where
  x : α
  y : α
  z : α
  amplitude : α
  integral : α
  pad_id : α
  raw_time : α
  scale : α
  deriving DecidableEq, Repr

/-- A detected signal peak on one channel (`trace.get_peaks()` element). -/
structure Peak where
  centroid : ℚ
  amplitude : ℚ
  integral : ℚ
  deriving DecidableEq, Repr

/-- Pad geometry and calibration data (`pmap.get_pad_data` result). -/
structure PadData where
  x : ℚ
  y : ℚ
  time_offset : ℚ
  gain : ℚ
  scale : ℚ
  deriving DecidableEq, Repr

/-- Hardware channel identifier; only its `pad_id` field is read by the cloud builder. -/
structure HardwareID where
  pad_id : ℤ
  deriving DecidableEq, Repr

/-- One GET trace: a hardware id together with its detected peaks. -/
structure Trace where
  hw_id : HardwareID
  peaks : List Peak
  deriving DecidableEq, Repr

/-- A GET event: event number and traces. -/
structure GetEvent where
  number : ℤ
  traces : List Trace
  deriving DecidableEq, Repr

/-- The external pad map collaborator: hardware id → pad number, pad number → pad data. -/
structure PadMap where
  get_pad_from_hardware : HardwareID → Option ℤ
  get_pad_data : ℤ → Option PadData

/-- The all-zero row produced by `np.zeros((count, 8))`. -/
def zeroPt : Pt ℚ := ⟨0, 0, 0, 0, 0, 0, 0, 0⟩

/-- The row written for one peak of a trace in `load_cloud_from_get_event`
(source lines 102-114): geometry from the pad, z/time from
`peak.centroid + pad.time_offset`, integral scaled by the pad gain, and
field 5 written from `trace.hw_id.pad_id` (the raw hardware pad id). -/
def mkRow (pad : PadData) (raw_id : ℤ) (peak : Peak) : Pt ℚ :=
  ⟨pad.x, pad.y, peak.centroid + pad.time_offset, peak.amplitude,
    peak.integral * pad.gain, (raw_id : ℚ), peak.centroid + pad.time_offset, pad.scale⟩

/-- `if corrector is not None: cloud[idx] = corrector.correct_point(cloud[idx])`. -/
def applyCorrector (corr : Option (Pt ℚ → Pt ℚ)) (p : Pt ℚ) : Pt ℚ :=
  match corr with
  | none => p
  | some f => f p

/-- The rows written for one trace by the loader loop: nothing when the trace
has no peaks, when `get_pad_from_hardware` returns `None` (warn and skip), or
when `get_pad_data` returns `None`; otherwise one row per peak, each passed
through the optional corrector. -/
def traceRows (pmap : PadMap) (corr : Option (Pt ℚ → Pt ℚ)) (t : Trace) : List (Pt ℚ) :=
  if t.peaks.length = 0 then []
  else
    match pmap.get_pad_from_hardware t.hw_id with
    | none => []
    | some check =>
      match pmap.get_pad_data check with
      | none => []
      | some pad => t.peaks.map (fun peak => applyCorrector corr (mkRow pad t.hw_id.pad_id peak))

/-- `count`: the total number of peaks over all traces (source lines 79-81). -/
def totalPeakCount (event : GetEvent) : ℕ :=
  (event.traces.map (fun t => t.peaks.length)).sum

/-- The consecutively written prefix of the cloud array (index `idx` advances
once per emitted row). -/
def writtenRows (event : GetEvent) (pmap : PadMap) (corr : Option (Pt ℚ → Pt ℚ)) : List (Pt ℚ) :=
  (event.traces.map (traceRows pmap corr)).flatten

/-- `load_cloud_from_get_event`: the final contents of `self.cloud`.  The array
is created as `np.zeros((count, 8))` and rows are written consecutively from
index 0, so the result is the written prefix followed by untouched zero rows. -/
def load_cloud_from_get_event (event : GetEvent) (pmap : PadMap)
    (corr : Option (Pt ℚ → Pt ℚ)) : List (Pt ℚ) :=
  writtenRows event pmap corr ++
    List.replicate (totalPeakCount event - (writtenRows event pmap corr).length) zeroPt

/-- The peak count the claim speaks about: peaks summed over only those
channels whose pad lookup succeeds.  This definition follows the claim's
words, to be compared with the cloud built from the source. -/
def mappedPeakCount (event : GetEvent) (pmap : PadMap) : ℕ :=
  ((event.traces.filter (fun t => (pmap.get_pad_from_hardware t.hw_id).isSome)).map
    (fun t => t.peaks.length)).sum

/-- `calibrate_z_position` (source lines 176-179): for every row, field 2 is
overwritten with
`(window_tb - point[6]) / (window_tb - micromegas_tb) * detector_length - ic_correction`. -/
def calibrate_z_position (micromegas_tb window_tb detector_length ic_correction : ℚ) :
    List (Pt ℚ) → List (Pt ℚ)
  | [] => []
  | p :: rest =>
    ⟨p.x, p.y,
      (window_tb - p.raw_time) / (window_tb - micromegas_tb) * detector_length - ic_correction,
      p.amplitude, p.integral, p.pad_id, p.raw_time, p.scale⟩ ::
      calibrate_z_position micromegas_tb window_tb detector_length ic_correction rest

/-- Squared Euclidean distance between the spatial fields (columns 0-2) of two rows. -/
def sqDist3 (q p : Pt ℚ) : ℚ :=
  (q.x - p.x) ^ 2 + (q.y - p.y) ^ 2 + (q.z - p.z) ^ 2

/-- The mask test `np.linalg.norm(row[:3] - point[:3]) < max_distance`, expressed
without the square root: for a nonnegative squared distance `s`,
`sqrt s < m` holds exactly when `0 < m` and `s < m ^ 2`
(see `normLtB_eq_true_iff_sqrt_lt`). -/
def normLtB (s m : ℚ) : Bool :=
  decide (0 < m) && decide (s < m ^ 2)

/-- `neighbors = self.cloud[mask]`: the rows of the cloud whose spatial distance
to `p` is strictly below `maxd` (`p` itself qualifies when it is in the cloud). -/
def neighborsOf (cloud : List (Pt ℚ)) (maxd : ℚ) (p : Pt ℚ) : List (Pt ℚ) :=
  cloud.filter (fun q => normLtB (sqDist3 q p) maxd)

/-- The sum of the weights `neighbors[:, 3]` used by `np.average`. -/
def ampSum (ns : List (Pt ℚ)) : ℚ :=
  (ns.map (fun n => n.amplitude)).sum

/-- One column of `np.average(neighbors, axis=0, weights=neighbors[:, 3])`. -/
def wavgField (ns : List (Pt ℚ)) (f : Pt ℚ → ℚ) : ℚ :=
  (ns.map (fun n => f n * n.amplitude)).sum / ampSum ns

/-- The full amplitude-weighted average row. -/
def weighted_average (ns : List (Pt ℚ)) : Pt ℚ :=
  ⟨wavgField ns (fun n => n.x), wavgField ns (fun n => n.y), wavgField ns (fun n => n.z),
    wavgField ns (fun n => n.amplitude), wavgField ns (fun n => n.integral),
    wavgField ns (fun n => n.pad_id), wavgField ns (fun n => n.raw_time),
    wavgField ns (fun n => n.scale)⟩

/-- `np.isclose(v, 0.0)` with numpy's defaults `rtol=1e-5`, `atol=1e-8`:
`|v - 0| <= atol + rtol * |0| = 1e-8`. -/
def np_isclose_zero (v : ℚ) : Bool :=
  decide (|v| ≤ 1 / 100000000)

/-- The row of `smoothed_cloud` computed for one point of the loop body
(source lines 193-204).  `some zeroPt` is the untouched `np.zeros` row left by
a `continue`; `none` models the `ZeroDivisionError` that `np.average` raises
when the weights sum to zero. -/
def smoothedRow (cloud : List (Pt ℚ)) (maxd : ℚ) (p : Pt ℚ) : Option (Pt ℚ) :=
  if (neighborsOf cloud maxd p).length < 2 then some zeroPt
  else if ampSum (neighborsOf cloud maxd p) = 0 then none
  else if np_isclose_zero (weighted_average (neighborsOf cloud maxd p)).integral then some zeroPt
  else some (weighted_average (neighborsOf cloud maxd p))

/-- The whole `smoothed_cloud` array, or `none` when any iteration raises. -/
def smoothedRowsAux (cloud : List (Pt ℚ)) (maxd : ℚ) : List (Pt ℚ) → Option (List (Pt ℚ))
  | [] => some []
  | p :: rest =>
    match smoothedRow cloud maxd p, smoothedRowsAux cloud maxd rest with
    | some r, some rs => some (r :: rs)
    | _, _ => none

/-- `smoothed_cloud[smoothed_cloud[:, 3] != 0.0]`: the smoothed rows with the
all-zero discard sentinel (and any other zero-amplitude row) removed. -/
def keptRows (cloud : List (Pt ℚ)) (maxd : ℚ) : Option (List (Pt ℚ)) :=
  (smoothedRowsAux cloud maxd cloud).map
    (fun rows => rows.filter (fun r => decide (r.amplitude ≠ 0)))

/-- Round half to even, as `np.round` does on exact ties. -/
def roundHalfEven (v : ℚ) : ℤ :=
  let f := Int.floor v
  let frac := v - (f : ℚ)
  if frac < 1 / 2 then f
  else if 1 / 2 < frac then f + 1
  else if f % 2 = 0 then f else f + 1

/-- `np.round(v, decimals=2)`. -/
def np_round2 (v : ℚ) : ℚ :=
  (roundHalfEven (v * 100) : ℚ) / 100

/-- The rounded spatial triple `np.round(row[:3], decimals=2)` used as the
deduplication key. -/
def roundedPos (p : Pt ℚ) : ℚ × ℚ × ℚ :=
  (np_round2 p.x, np_round2 p.y, np_round2 p.z)

/-- Keep only the first occurrence of each rounded spatial triple, walking the
rows in order with the set of already-seen triples. -/
def dedupFirstAux (seen : List (ℚ × ℚ × ℚ)) : List (Pt ℚ) → List (Pt ℚ)
  | [] => []
  | r :: rest =>
    if roundedPos r ∈ seen then dedupFirstAux seen rest
    else r :: dedupFirstAux (roundedPos r :: seen) rest

/-- First occurrences of distinct rounded triples, in original row order. -/
def dedupFirst (rows : List (Pt ℚ)) : List (Pt ℚ) :=
  dedupFirstAux [] rows

/-- Strict lexicographic order on rounded triples, the order in which
`np.unique(..., axis=0)` returns its (distinct) unique rows. -/
def posLtB (a b : ℚ × ℚ × ℚ) : Bool :=
  decide (a.1 < b.1) ||
    (decide (a.1 = b.1) &&
      (decide (a.2.1 < b.2.1) || (decide (a.2.1 = b.2.1) && decide (a.2.2 < b.2.2))))

/-- Insertion step of sorting rows by their rounded triple. -/
def insertByPos (r : Pt ℚ) : List (Pt ℚ) → List (Pt ℚ)
  | [] => [r]
  | s :: rest => if posLtB (roundedPos r) (roundedPos s) then r :: s :: rest
                 else s :: insertByPos r rest

/-- Sort rows by their rounded triple (all triples are distinct after
deduplication, so this is the unique sorted order `np.unique` emits). -/
def sortByPos : List (Pt ℚ) → List (Pt ℚ)
  | [] => []
  | r :: rest => insertByPos r (sortByPos rest)

/-- `smooth_cloud` (source lines 192-210): compute the smoothed rows (raising
on a zero weight sum), drop zero-amplitude rows, then
`np.unique(np.round(rows[:, :3], 2), axis=0, return_index=True)` keeps the
first occurrence of each rounded triple and orders the kept rows by triple. -/
def smooth_cloud (cloud : List (Pt ℚ)) (maxd : ℚ) : Option (List (Pt ℚ)) :=
  (keptRows cloud maxd).map (fun rows => sortByPos (dedupFirst rows))

/-- Modelled from the spec: `clamp` comes from the repository's interpolate
module, which is not under src/; per the spec it clamps a value into the
closed interval `[lo, hi]`. -/
def clamp (v lo hi : ℝ) : ℝ :=
  min (max v lo) hi

/-- `np.arctan2 y x` over exact reals. -/
noncomputable def arctan2 (y x : ℝ) : ℝ :=
  if 0 < x then Real.arctan (y / x)
  else if x < 0 then
    (if 0 ≤ y then Real.arctan (y / x) + Real.pi else Real.arctan (y / x) - Real.pi)
  else if 0 < y then Real.pi / 2
  else if y < 0 then -(Real.pi / 2)
  else 0

/-- `ElectronCorrector.correct_point` (electron_corrector.py lines 10-29),
parameterized by the bilinear interpolator `self.correction.interpolate`
(an external collaborator).  `corrected_point = np.zeros(len(point))` followed
by `corrected_point[3:] = point[3:]` copies fields 3-7; fields 0-2 are then
overwritten with the corrected coordinates. -/
noncomputable def correct_point (interp : ℝ → ℝ → ℝ × ℝ × ℝ) (point : Pt ℝ) : Pt ℝ :=
  let radius : ℝ := Real.sqrt (point.x ^ 2 + point.y ^ 2)
  let azimuthal : ℝ := arctan2 point.y point.x
  let correction := interp radius point.z
  let z_correction := clamp correction.2.2 0 1000
  let corrected_radius := Real.sqrt ((radius + correction.1) ^ 2 + correction.2.1 ^ 2)
  let corrected_azim := azimuthal + arctan2 correction.2.1 (radius + correction.1)
  ⟨corrected_radius * Real.cos corrected_azim, corrected_radius * Real.sin corrected_azim,
    point.z - z_correction, point.amplitude, point.integral, point.pad_id,
    point.raw_time, point.scale⟩

theorem traceRows_length_le (pmap : PadMap) (corr : Option (Pt ℚ → Pt ℚ)) (t : Trace) :
    (traceRows pmap corr t).length ≤ t.peaks.length := by
  unfold traceRows
  split
  · simp
  · split
    · simp
    · split
      · simp
      · simp

theorem writtenRows_length_le (event : GetEvent) (pmap : PadMap)
    (corr : Option (Pt ℚ → Pt ℚ)) :
    (writtenRows event pmap corr).length ≤ totalPeakCount event := by
  unfold writtenRows totalPeakCount
  rw [List.length_flatten, List.map_map]
  exact List.sum_le_sum (fun t _ => traceRows_length_le pmap corr t)

/-- C1 (counterexample): an event with a single one-peak trace whose pad lookup
fails yields a cloud of length 1, while the peak count over successfully
mapped channels is 0 — the array is never trimmed to the mapped channels. -/
theorem c1_counterexample :
    (load_cloud_from_get_event ⟨1, [⟨⟨7⟩, [⟨1, 2, 3⟩]⟩]⟩
      (PadMap.mk (fun _ => none) (fun _ => none)) none).length ≠
      mappedPeakCount ⟨1, [⟨⟨7⟩, [⟨1, 2, 3⟩]⟩]⟩ (PadMap.mk (fun _ => none) (fun _ => none)) := by
  decide

/-- C1 (amended): for every event loaded via `load_cloud_from_get_event`, the
cloud's length equals the total number of peaks summed over ALL channels —
channels whose pad lookup fails still occupy rows, which stay all-zero. -/
theorem c1_cloud_length_equals_total_peak_count (event : GetEvent) (pmap : PadMap)
    (corr : Option (Pt ℚ → Pt ℚ)) :
    (load_cloud_from_get_event event pmap corr).length = totalPeakCount event := by
  unfold load_cloud_from_get_event
  rw [List.length_append, List.length_replicate]
  exact Nat.add_sub_cancel' (writtenRows_length_le event pmap corr)

/-- C2: at an input whose geometry lookup resolves hardware pad id 7 to pad 3,
the emitted point carries the RAW hardware id 7 in field 5, not the resolved
id 3 — the resolved id computed into the local `pid` is never used. -/
theorem c2_raw_pad_id_written_despite_resolution :
    (PadMap.mk (fun _ => some 3) (fun _ => some ⟨10, 0, 5, 2, 1⟩)).get_pad_from_hardware ⟨7⟩ =
      some 3 ∧
    (3 : ℤ) ≠ 7 ∧
    (load_cloud_from_get_event ⟨2, [⟨⟨7⟩, [⟨100, 50, 10⟩]⟩]⟩
      (PadMap.mk (fun _ => some 3) (fun _ => some ⟨10, 0, 5, 2, 1⟩)) none).map
        (fun p => p.pad_id) = [(7 : ℚ)] := by
  decide

/-- C3: the end-to-end example — pad `(x=10, y=0, time_offset=5, gain=2, scale=1)`
with one peak `(centroid=100, amplitude=50, integral=10)` and no corrector emits
`[10, 0, 105, 50, 20, pad_id, 105, 1]`, and calibrating with
`micromegas_ref=50, window_ref=500, detector_length=1000, ic_correction=0`
sets z to `(500-105)/(500-50)*1000`, which is within 0.01 of 877.78. -/
theorem c3_end_to_end_example :
    load_cloud_from_get_event ⟨42, [⟨⟨12⟩, [⟨100, 50, 10⟩]⟩]⟩
      (PadMap.mk (fun _ => some 12) (fun _ => some ⟨10, 0, 5, 2, 1⟩)) none =
      [⟨10, 0, 105, 50, 20, 12, 105, 1⟩] ∧
    calibrate_z_position 50 500 1000 0
      (load_cloud_from_get_event ⟨42, [⟨⟨12⟩, [⟨100, 50, 10⟩]⟩]⟩
        (PadMap.mk (fun _ => some 12) (fun _ => some ⟨10, 0, 5, 2, 1⟩)) none) =
      [⟨10, 0, (500 - 105) / (500 - 50) * 1000, 50, 20, 12, 105, 1⟩] ∧
    |(500 - 105 : ℚ) / (500 - 50) * 1000 - 877.78| < 1 / 100 := by
  refine ⟨?_, ?_, ?_⟩ <;>
    norm_num [load_cloud_from_get_event, writtenRows, traceRows, mkRow, applyCorrector,
      totalPeakCount, calibrate_z_position, abs_lt]

/-- C4: `calibrate_z_position` replaces every point's field 2 with
`(window_ref - raw_time) / (window_ref - micromegas_ref) * detector_length - ic`,
leaving all other fields unchanged; consequently, for `micromegas_ref ≠ window_ref`,
two points with equal raw time receive equal calibrated z. -/
theorem c4_calibrate_z_affine_in_raw_time (mm w len ic : ℚ) (cloud : List (Pt ℚ)) :
    (∀ i : ℕ, (calibrate_z_position mm w len ic cloud)[i]? =
      (cloud[i]?).map (fun p =>
        ⟨p.x, p.y, (w - p.raw_time) / (w - mm) * len - ic,
          p.amplitude, p.integral, p.pad_id, p.raw_time, p.scale⟩)) ∧
    (mm ≠ w → ∀ (i j : ℕ) (pi pj zi zj : Pt ℚ),
      cloud[i]? = some pi → cloud[j]? = some pj → pi.raw_time = pj.raw_time →
      (calibrate_z_position mm w len ic cloud)[i]? = some zi →
      (calibrate_z_position mm w len ic cloud)[j]? = some zj → zi.z = zj.z) := by
  have key : ∀ i : ℕ, (calibrate_z_position mm w len ic cloud)[i]? =
      (cloud[i]?).map (fun p =>
        ⟨p.x, p.y, (w - p.raw_time) / (w - mm) * len - ic,
          p.amplitude, p.integral, p.pad_id, p.raw_time, p.scale⟩) := by
    induction cloud with
    | nil => intro i; simp [calibrate_z_position]
    | cons p rest ih =>
      intro i
      cases i with
      | zero => simp [calibrate_z_position]
      | succ n => simpa [calibrate_z_position] using ih n
  refine ⟨key, ?_⟩
  intro _ i j pi pj zi zj hpi hpj hrt hzi hzj
  have h1 := key i
  rw [hzi, hpi] at h1
  have h2 := key j
  rw [hzj, hpj] at h2
  simp only [Option.map_some', Option.some.injEq] at h1 h2
  rw [h1, h2]
  simp only [hrt]

/-- Concrete instance of `c4_calibrate_z_affine_in_raw_time` on a two-point
cloud with equal raw time 10 and parameters `mm=0, w=2, len=4, ic=0`. -/
theorem c4_calibrate_z_affine_in_raw_time_witness :
    (calibrate_z_position 0 2 4 0
      [⟨0, 0, 0, 1, 1, 1, 10, 1⟩, ⟨5, 5, 5, 2, 2, 2, 10, 1⟩])[0]? =
      some ⟨0, 0, (2 - 10) / (2 - 0) * 4 - 0, 1, 1, 1, 10, 1⟩ ∧
    (⟨0, 0, -16, 1, 1, 1, 10, 1⟩ : Pt ℚ).z = (⟨5, 5, -16, 2, 2, 2, 10, 1⟩ : Pt ℚ).z := by
  have h := c4_calibrate_z_affine_in_raw_time 0 2 4 0
    [⟨0, 0, 0, 1, 1, 1, 10, 1⟩, ⟨5, 5, 5, 2, 2, 2, 10, 1⟩]
  refine ⟨(h.1 0).trans rfl, ?_⟩
  exact h.2 (by norm_num) 0 1 ⟨0, 0, 0, 1, 1, 1, 10, 1⟩ ⟨5, 5, 5, 2, 2, 2, 10, 1⟩
    ⟨0, 0, -16, 1, 1, 1, 10, 1⟩ ⟨5, 5, -16, 2, 2, 2, 10, 1⟩ rfl rfl rfl
    (by norm_num [calibrate_z_position]) (by norm_num [calibrate_z_position])

/-- C5: `correct_point` changes at most the first 3 fields; fields 3-7
(amplitude, integral, pad id, raw time, scale) are returned identical to the
input point's, for every interpolator and every input point. -/
theorem c5_correct_point_preserves_fields_3_to_7 (interp : ℝ → ℝ → ℝ × ℝ × ℝ)
    (point : Pt ℝ) :
    (correct_point interp point).amplitude = point.amplitude ∧
    (correct_point interp point).integral = point.integral ∧
    (correct_point interp point).pad_id = point.pad_id ∧
    (correct_point interp point).raw_time = point.raw_time ∧
    (correct_point interp point).scale = point.scale :=
  ⟨rfl, rfl, rfl, rfl, rfl⟩

/-- C10: `calibrate_z_position` runs unguarded on every cloud (the output
always has one row per input row, with no check of the time references), and
under the caller-supplied precondition `window_tb ≠ micromegas_tb` the divisor
`window_tb - micromegas_tb` is nonzero, so the division never hits zero. -/
theorem c10_calibrate_unguarded_division (mm w len ic : ℚ) (cloud : List (Pt ℚ)) :
    (calibrate_z_position mm w len ic cloud).length = cloud.length ∧
    (w ≠ mm → w - mm ≠ 0) := by
  constructor
  · induction cloud with
    | nil => rfl
    | cons p rest ih => simpa [calibrate_z_position] using ih
  · exact fun h => sub_ne_zero_of_ne h

/-- Concrete instance of `c10_calibrate_unguarded_division` with the reference
parameters `mm=50, w=500` on a one-row cloud. -/
theorem c10_calibrate_unguarded_division_witness :
    (calibrate_z_position 50 500 1000 0 [zeroPt]).length = 1 ∧ (500 : ℚ) - 50 ≠ 0 :=
  ⟨(c10_calibrate_unguarded_division 50 500 1000 0 [zeroPt]).1.trans rfl,
    (c10_calibrate_unguarded_division 50 500 1000 0 [zeroPt]).2 (by norm_num)⟩

theorem smoothedRowsAux_eq_none (cloud : List (Pt ℚ)) (maxd : ℚ) (l : List (Pt ℚ)) (p : Pt ℚ)
    (hp : p ∈ l) (hnone : smoothedRow cloud maxd p = none) :
    smoothedRowsAux cloud maxd l = none := by
  induction l with
  | nil => cases hp
  | cons q rest ih =>
    rcases List.mem_cons.1 hp with h | h
    · subst h
      simp [smoothedRowsAux, hnone]
    · cases hq : smoothedRow cloud maxd q <;> simp [smoothedRowsAux, hq, ih h]

theorem insertByPos_perm (r : Pt ℚ) (l : List (Pt ℚ)) : (insertByPos r l).Perm (r :: l) := by
  induction l with
  | nil => exact List.Perm.refl _
  | cons s rest ih =>
    unfold insertByPos
    split
    · exact List.Perm.refl _
    · exact (ih.cons s).trans (List.Perm.swap r s rest)

theorem sortByPos_perm (l : List (Pt ℚ)) : (sortByPos l).Perm l := by
  induction l with
  | nil => exact List.Perm.refl _
  | cons r rest ih => exact (insertByPos_perm r (sortByPos rest)).trans (ih.cons r)

theorem dedupFirstAux_subset {l : List (Pt ℚ)} {seen : List (ℚ × ℚ × ℚ)} {q : Pt ℚ}
    (h : q ∈ dedupFirstAux seen l) : q ∈ l := by
  induction l generalizing seen with
  | nil => cases h
  | cons r rest ih =>
    unfold dedupFirstAux at h
    split at h
    · exact List.mem_cons_of_mem r (ih h)
    · rcases List.mem_cons.1 h with h' | h'
      · subst h'; exact List.mem_cons_self _ _
      · exact List.mem_cons_of_mem r (ih h')

theorem dedupFirstAux_pairwise (l : List (Pt ℚ)) (seen : List (ℚ × ℚ × ℚ)) :
    List.Pairwise (fun a b => roundedPos a ≠ roundedPos b) (dedupFirstAux seen l) ∧
    ∀ r ∈ dedupFirstAux seen l, roundedPos r ∉ seen := by
  induction l generalizing seen with
  | nil => constructor <;> simp [dedupFirstAux]
  | cons r rest ih =>
    unfold dedupFirstAux
    split
    · exact ⟨(ih seen).1, (ih seen).2⟩
    · rename_i hmem
      refine ⟨List.Pairwise.cons ?_ (ih (roundedPos r :: seen)).1, ?_⟩
      · intro b hb
        have hnotin := (ih (roundedPos r :: seen)).2 b hb
        intro hcontra
        exact hnotin (by rw [← hcontra]; exact List.mem_cons_self _ _)
      · intro q hq
        rcases List.mem_cons.1 hq with h' | h'
        · subst h'; exact hmem
        · have hnotin := (ih (roundedPos r :: seen)).2 q h'
          exact fun hc => hnotin (List.mem_cons_of_mem _ hc)

theorem dedupFirstAux_first_occ (l : List (Pt ℚ)) (seen : List (ℚ × ℚ × ℚ)) (r : Pt ℚ)
    (h : r ∈ dedupFirstAux seen l) :
    ∃ l₁ l₂, l = l₁ ++ r :: l₂ ∧
      ∀ s ∈ l₁, roundedPos s ≠ roundedPos r ∨ roundedPos s ∈ seen := by
  induction l generalizing seen with
  | nil => cases h
  | cons q rest ih =>
    unfold dedupFirstAux at h
    split at h
    · rename_i hmem
      obtain ⟨l₁, l₂, heq, hpre⟩ := ih seen h
      refine ⟨q :: l₁, l₂, by rw [heq]; rfl, ?_⟩
      intro s hs
      rcases List.mem_cons.1 hs with h' | h'
      · subst h'; exact Or.inr hmem
      · exact hpre s h'
    · rename_i hmem
      rcases List.mem_cons.1 h with h' | h'
      · subst h'
        exact ⟨[], rest, rfl, by simp⟩
      · obtain ⟨l₁, l₂, heq, hpre⟩ := ih (roundedPos q :: seen) h'
        have hnotin := (dedupFirstAux_pairwise rest (roundedPos q :: seen)).2 r h'
        refine ⟨q :: l₁, l₂, by rw [heq]; rfl, ?_⟩
        intro s hs
        rcases List.mem_cons.1 hs with h'' | h''
        · subst h''
          exact Or.inl (fun hc => hnotin (by rw [← hc]; exact List.mem_cons_self _ _))
        · rcases hpre s h'' with hne | hin
          · exact Or.inl hne
          · rcases List.mem_cons.1 hin with h3 | h3
            · exact Or.inl (by
                rw [h3]
                exact fun hc => hnotin (by rw [← hc]; exact List.mem_cons_self _ _))
            · exact Or.inr h3

theorem dedupFirst_first_occ (rows : List (Pt ℚ)) (r : Pt ℚ) (h : r ∈ dedupFirst rows) :
    ∃ l₁ l₂, rows = l₁ ++ r :: l₂ ∧ ∀ s ∈ l₁, roundedPos s ≠ roundedPos r := by
  obtain ⟨l₁, l₂, heq, hpre⟩ := dedupFirstAux_first_occ rows [] r h
  exact ⟨l₁, l₂, heq, fun s hs => (hpre s hs).resolve_right (by simp)⟩

/-- C6 (amended): a point whose neighborhood has at least 2 members but whose
amplitude weights sum to zero makes `np.average` raise `ZeroDivisionError`, so
`smooth_cloud` fails (returns no cloud) instead of discarding the point. -/
theorem c6_zero_weight_sum_raises (cloud : List (Pt ℚ)) (maxd : ℚ) (p : Pt ℚ)
    (hp : p ∈ cloud) (hlen : 2 ≤ (neighborsOf cloud maxd p).length)
    (hsum : ampSum (neighborsOf cloud maxd p) = 0) :
    smooth_cloud cloud maxd = none := by
  have hrow : smoothedRow cloud maxd p = none := by
    unfold smoothedRow
    rw [if_neg (by omega), if_pos hsum]
  unfold smooth_cloud keptRows
  rw [smoothedRowsAux_eq_none cloud maxd cloud p hp hrow]
  rfl

/-- C7: any point whose neighborhood (within `max_distance`, itself included)
has fewer than 2 members is discarded by `smooth_cloud`: its smoothed slot is
the all-zero sentinel row, which never appears in the returned cloud. -/
theorem c7_small_neighborhood_discarded (cloud : List (Pt ℚ)) (maxd : ℚ) (p : Pt ℚ)
    (res : List (Pt ℚ)) (hres : smooth_cloud cloud maxd = some res) (hp : p ∈ cloud)
    (hlen : (neighborsOf cloud maxd p).length < 2) :
    smoothedRow cloud maxd p = some zeroPt ∧ zeroPt ∉ res := by
  refine ⟨by unfold smoothedRow; rw [if_pos hlen], ?_⟩
  intro hmem
  unfold smooth_cloud keptRows at hres
  cases haux : smoothedRowsAux cloud maxd cloud with
  | none => rw [haux] at hres; simp at hres
  | some rows =>
    rw [haux] at hres
    simp only [Option.map_some', Option.some.injEq] at hres
    rw [← hres] at hmem
    have h1 : zeroPt ∈ dedupFirst (rows.filter (fun r => decide (r.amplitude ≠ 0))) :=
      (sortByPos_perm _).mem_iff.1 hmem
    have h2 : zeroPt ∈ rows.filter (fun r => decide (r.amplitude ≠ 0)) :=
      dedupFirstAux_subset h1
    have h3 := (List.mem_filter.1 h2).2
    simp [zeroPt] at h3

/-- C8: in the cloud returned by `smooth_cloud`, no two points have spatial
coordinates equal after rounding to 2 decimals, and every retained point is
the first occurrence of its rounded triple among the filtered smoothed rows. -/
theorem c8_dedup_first_occurrence (cloud : List (Pt ℚ)) (maxd : ℚ)
    (rows res : List (Pt ℚ)) (hrows : keptRows cloud maxd = some rows)
    (hres : smooth_cloud cloud maxd = some res) :
    List.Pairwise (fun a b => roundedPos a ≠ roundedPos b) res ∧
    ∀ r ∈ res, ∃ l₁ l₂, rows = l₁ ++ r :: l₂ ∧ ∀ s ∈ l₁, roundedPos s ≠ roundedPos r := by
  unfold smooth_cloud at hres
  rw [hrows] at hres
  simp only [Option.map_some', Option.some.injEq] at hres
  subst hres
  constructor
  · exact ((sortByPos_perm (dedupFirst rows)).pairwise_iff
      (fun h => Ne.symm h)).2 (dedupFirstAux_pairwise rows []).1
  · intro r hr
    exact dedupFirst_first_occ rows r ((sortByPos_perm _).mem_iff.1 hr)

/-- C6 (counterexample): a 2-point, cohabiting cloud with amplitudes `1` and
`-1` has a full-size neighborhood whose weights sum to zero, and
`smooth_cloud` fails on it (the claim says the point is discarded and the call
completes normally). -/
theorem c6_counterexample :
    2 ≤ (neighborsOf [(⟨0, 0, 0, 1, 1, 1, 1, 1⟩ : Pt ℚ), ⟨0, 0, 0, -1, 1, 2, 2, 2⟩] 10
      ⟨0, 0, 0, 1, 1, 1, 1, 1⟩).length ∧
    ampSum (neighborsOf [(⟨0, 0, 0, 1, 1, 1, 1, 1⟩ : Pt ℚ), ⟨0, 0, 0, -1, 1, 2, 2, 2⟩] 10
      ⟨0, 0, 0, 1, 1, 1, 1, 1⟩) = 0 ∧
    smooth_cloud [(⟨0, 0, 0, 1, 1, 1, 1, 1⟩ : Pt ℚ), ⟨0, 0, 0, -1, 1, 2, 2, 2⟩] 10 = none := by
  refine ⟨?_, ?_, ?_⟩ <;>
    norm_num [smooth_cloud, keptRows, smoothedRowsAux, smoothedRow, neighborsOf, normLtB,
      sqDist3, ampSum, List.filter]

/-- Concrete instance of `c6_zero_weight_sum_raises` on the zero-weight-sum
two-point cloud. -/
theorem c6_zero_weight_sum_raises_witness :
    smooth_cloud [(⟨0, 0, 0, 1, 1, 1, 1, 1⟩ : Pt ℚ), ⟨0, 0, 0, -1, 1, 2, 2, 2⟩] 10 = none :=
  c6_zero_weight_sum_raises [⟨0, 0, 0, 1, 1, 1, 1, 1⟩, ⟨0, 0, 0, -1, 1, 2, 2, 2⟩] 10
    ⟨0, 0, 0, 1, 1, 1, 1, 1⟩ (List.mem_cons_self _ _)
    (by norm_num [neighborsOf, normLtB, sqDist3, List.filter])
    (by norm_num [neighborsOf, normLtB, sqDist3, ampSum, List.filter])

/-- Concrete instance of `c7_small_neighborhood_discarded`: two far-apart
points with `max_distance = 1` are both discarded and the returned cloud is
empty. -/
theorem c7_small_neighborhood_discarded_witness :
    smoothedRow [(⟨0, 0, 0, 1, 1, 1, 1, 1⟩ : Pt ℚ), ⟨100, 0, 0, 1, 1, 1, 1, 1⟩] 1
      ⟨0, 0, 0, 1, 1, 1, 1, 1⟩ = some zeroPt ∧ zeroPt ∉ ([] : List (Pt ℚ)) :=
  c7_small_neighborhood_discarded [⟨0, 0, 0, 1, 1, 1, 1, 1⟩, ⟨100, 0, 0, 1, 1, 1, 1, 1⟩] 1
    ⟨0, 0, 0, 1, 1, 1, 1, 1⟩ []
    (by norm_num [smooth_cloud, keptRows, smoothedRowsAux, smoothedRow, neighborsOf, normLtB,
      sqDist3, ampSum, List.filter, zeroPt, dedupFirst, dedupFirstAux, sortByPos])
    (List.mem_cons_self _ _)
    (by norm_num [neighborsOf, normLtB, sqDist3, List.filter])

/-- Concrete instance of `c8_dedup_first_occurrence`: two identical points
smooth to two identical rows; only the first occurrence of the rounded triple
is retained. -/
theorem c8_dedup_first_occurrence_witness :
    List.Pairwise (fun a b => roundedPos a ≠ roundedPos b)
      [(⟨0, 0, 0, 1, 1, 1, 1, 1⟩ : Pt ℚ)] ∧
    ∀ r ∈ [(⟨0, 0, 0, 1, 1, 1, 1, 1⟩ : Pt ℚ)],
      ∃ l₁ l₂,
        [(⟨0, 0, 0, 1, 1, 1, 1, 1⟩ : Pt ℚ), ⟨0, 0, 0, 1, 1, 1, 1, 1⟩] = l₁ ++ r :: l₂ ∧
        ∀ s ∈ l₁, roundedPos s ≠ roundedPos r :=
  c8_dedup_first_occurrence [⟨0, 0, 0, 1, 1, 1, 1, 1⟩, ⟨0, 0, 0, 1, 1, 1, 1, 1⟩] 10
    [⟨0, 0, 0, 1, 1, 1, 1, 1⟩, ⟨0, 0, 0, 1, 1, 1, 1, 1⟩] [⟨0, 0, 0, 1, 1, 1, 1, 1⟩]
    (by norm_num [keptRows, smoothedRowsAux, smoothedRow, neighborsOf, normLtB,
      sqDist3, ampSum, np_isclose_zero, weighted_average, wavgField, List.filter])
    (by norm_num [smooth_cloud, keptRows, smoothedRowsAux, smoothedRow, neighborsOf, normLtB,
      sqDist3, ampSum, np_isclose_zero, weighted_average, wavgField, List.filter,
      dedupFirst, dedupFirstAux, sortByPos, insertByPos, posLtB, roundedPos, np_round2,
      roundHalfEven])

/-- Justification of the square-root-free neighborhood test: for any squared
distance `s` (in particular the nonnegative `sqDist3`), the source's comparison
`sqrt s < maxd` holds exactly when `normLtB s maxd` is true. -/
theorem normLtB_eq_true_iff_sqrt_lt (s m : ℚ) :
    normLtB s m = true ↔ Real.sqrt (s : ℝ) < (m : ℝ) := by
  unfold normLtB
  constructor
  · intro h
    simp only [Bool.and_eq_true, decide_eq_true_eq] at h
    have hm : (0 : ℝ) < (m : ℝ) := by exact_mod_cast h.1
    refine (Real.sqrt_lt' hm).2 ?_
    have : (s : ℝ) < ((m : ℚ) : ℝ) ^ 2 := by exact_mod_cast h.2
    simpa using this
  · intro h
    have hm : (0 : ℝ) < (m : ℝ) := lt_of_le_of_lt (Real.sqrt_nonneg _) h
    have hs : (s : ℝ) < (m : ℝ) ^ 2 := (Real.sqrt_lt' hm).1 h
    simp only [Bool.and_eq_true, decide_eq_true_eq]
    exact ⟨by exact_mod_cast hm, by exact_mod_cast hs⟩
